import Mathlib

/-!
Verification of the chord-progression-practice core (src/main.py):
the chord theory table, the progression generator, the voicing
optimizer and the MIDI timeline builder, shallowly embedded in Lean.

Python integers are `Int`/`Nat`; Python floats (only ever used for
means of three small integers and their absolute differences) are
embedded as exact rationals `ℚ`.  Python's dict lookup failure
(`KeyError`), `random.sample`'s `ValueError` and the `TypeError`
raised by iterating `None` become an explicit error type.  The
process-wide random source of `random.sample` / `random.randint` is
embedded as an explicit oracle argument.
-/

deriving instance DecidableEq for Except

/-- The exceptions the core can raise.  `unknownDegree` is the
`KeyError` of `chord_formulas[roman]`, `invalidLength` the `ValueError`
of `random.sample` when the requested size exceeds the population,
`typeError` the `TypeError` of iterating a Python `None`. -/
inductive PyError where
  | unknownDegree
  | invalidLength
  | typeError
deriving DecidableEq

/-- Chord formulas in semitones relative to the tonic
(the `chord_formulas` dict, embedded as an association list). -/
def chord_formulas : List (String × List Int) :=
  [("I", [0, 4, 7]),
   ("ii", [2, 5, 9]),
   ("iii", [4, 7, 11]),
   ("IV", [5, 9, 12]),
   ("V", [7, 11, 14]),
   ("vi", [9, 12, 16]),
   ("vii°", [11, 14, 17]),
   ("#II", [3, 7, 10])]

/-- Additional chord choices (the first chord will always be "I"). -/
def additional_chords : List String :=
  ["ii", "iii", "IV", "V", "vi", "vii°", "#II"]

/-- `generate_progression(prog_length=None)`.  The random source is
the oracle pair `randint` (the draw of `random.randint(2, 4)` used
when no length is supplied) and `sample` (where `sample k` is the list
`random.sample(additional_chords, k)` would return); `random.sample`
raises `ValueError` when `k` exceeds the population size. -/
def generate_progression (randint : Int) (sample : Nat → List String)
    (prog_length : Option Int) : Except PyError (List String) :=
  let p : Int := match prog_length with
    | none => randint
    | some n => n
  let p : Int := if p < 1 then 1 else p
  if p = 1 then .ok ["I"]
  else if additional_chords.length < (p - 1).toNat then .error .invalidLength
  else .ok ("I" :: sample (p - 1).toNat)

/-- `get_chord_notes(tonic, roman)`; a label outside the table makes
the dict lookup raise (`KeyError`, i.e. `unknownDegree`). -/
def get_chord_notes (tonic : Int) (roman : String) : Except PyError (List Int) :=
  match chord_formulas.lookup roman with
  | some offsets => .ok (offsets.map (fun offset => tonic + offset))
  | none => .error .unknownDegree

/-- `apply_inversion(chord, inversion)`; the callers only ever pass
inversions 0, 1, 2 (Python would return `None` otherwise). -/
def apply_inversion (chord : List Int) (inversion : Nat) : List Int :=
  if inversion = 0 then chord
  else if inversion = 1 then
    [chord.getD 1 0, chord.getD 2 0, chord.getD 0 0 + 12]
  else
    [chord.getD 2 0, chord.getD 0 0 + 12, chord.getD 1 0 + 12]

/-- `sum(candidate) / len(candidate)`, the arithmetic mean pitch. -/
def avg_pitch (candidate : List Int) : ℚ :=
  (candidate.sum : ℚ) / (candidate.length : ℚ)

/-- `abs(avg_candidate - target_avg)`, the distance the optimizer minimizes. -/
def dist_to (target_avg : ℚ) (candidate : List Int) : ℚ :=
  |avg_pitch candidate - target_avg|

/-- The candidates scanned by the two nested loops of
`choose_best_voicing`: inversion-major (`for inversion in [0, 1, 2]`),
octave-shift-minor (`for octave_shift in [0, -12]`). -/
def candidate_list (base : List Int) : List (List Int) :=
  ([0, 1, 2] : List Nat).flatMap (fun inversion =>
    let voicing := apply_inversion base inversion
    ([0, -12] : List Int).map (fun octave_shift =>
      voicing.map (fun note => note + octave_shift)))

/-- One iteration of the `choose_best_voicing` loop body: the running
pair `(best_voicing, best_diff)` starts as `(None, float('inf'))`,
embedded as `none`, and is replaced exactly when `diff < best_diff`. -/
def best_step (target_avg : ℚ) (acc : Option (List Int × ℚ))
    (candidate : List Int) : Option (List Int × ℚ) :=
  match acc with
  | none => some (candidate, dist_to target_avg candidate)
  | some (bv, bd) =>
    if dist_to target_avg candidate < bd then
      some (candidate, dist_to target_avg candidate)
    else
      some (bv, bd)

/-- `choose_best_voicing(tonic, roman, target_avg)`; the returned
`Option` is Python's `best_voicing` variable, `none` iff the loop
never ran (never the case: the candidate list has 6 entries). -/
def choose_best_voicing (tonic : Int) (roman : String) (target_avg : ℚ) :
    Except PyError (Option (List Int)) := do
  let base ← get_chord_notes tonic roman
  pure (((candidate_list base).foldl (best_step target_avg) none).map Prod.fst)

/-- The events appended to the MIDI track, with their `time` offsets. -/
inductive Event where
  | setTempo (tempo : Nat) (time : Nat)
  | noteOn (note : Int) (velocity : Nat) (time : Nat)
  | noteOff (note : Int) (velocity : Nat) (time : Nat)
  | marker (text : String) (time : Nat)
deriving DecidableEq

/-- The events one chord appends: a `note_on` per note at time 0, then
a `note_off` per note, the first at `chord_duration_ticks` and the
rest at 0 (`time=chord_duration_ticks if i == 0 else 0`). -/
def chord_events (chord_duration_ticks : Nat) (voicing : List Int) : List Event :=
  voicing.map (fun note => Event.noteOn note 100 0) ++
    match voicing with
    | [] => []
    | n :: rest =>
      Event.noteOff n 0 chord_duration_ticks ::
        rest.map (fun note => Event.noteOff note 0 0)

/-- The events of one repetition: each chord's events, with a `gap`
marker after every chord except the last
(`if idx < len(progression) - 1`). -/
def rep_events (chord_duration_ticks gap_ticks : Nat) :
    List (List Int) → List Event
  | [] => []
  | [v] => chord_events chord_duration_ticks v
  | v :: w :: vs =>
    chord_events chord_duration_ticks v ++
      Event.marker "gap" gap_ticks ::
        rep_events chord_duration_ticks gap_ticks (w :: vs)

/-- The voicing resolved for one degree of the progression: `"I"` maps
to the precomputed root-position chord, anything else goes through the
optimizer (a `None` result would make the later `for note in voicing`
raise `TypeError`). -/
def resolve_voicing (tonic : Int) (I_chord : List Int) (target_avg : ℚ)
    (roman : String) : Except PyError (List Int) :=
  if roman = "I" then .ok I_chord
  else
    match choose_best_voicing tonic roman target_avg with
    | .ok (some v) => .ok v
    | .ok none => .error .typeError
    | .error e => .error e

/-- The `voicings` list built by the first loop of
`create_midi_for_progression`. -/
def resolve_voicings (tonic : Int) (I_chord : List Int) (target_avg : ℚ) :
    List String → Except PyError (List (List Int))
  | [] => .ok []
  | roman :: rest => do
    let v ← resolve_voicing tonic I_chord target_avg roman
    let vs ← resolve_voicings tonic I_chord target_avg rest
    pure (v :: vs)

/-- `create_midi_for_progression(progression, tonic, 960, 240, 960)`:
the `set_tempo` meta message, then two repetitions of the progression
separated by one `rep_gap` marker (`if rep < 1`). -/
def create_midi_for_progression (progression : List String) (tonic : Int)
    (chord_duration_ticks gap_ticks rep_gap_ticks : Nat) :
    Except PyError (List Event) := do
  let I_chord ← get_chord_notes tonic "I"
  let target_avg := avg_pitch I_chord
  let voicings ← resolve_voicings tonic I_chord target_avg progression
  pure (Event.setTempo 1000000 0 ::
    (rep_events chord_duration_ticks gap_ticks voicings ++
      Event.marker "rep_gap" rep_gap_ticks ::
        rep_events chord_duration_ticks gap_ticks voicings))

/-- The time offset an event carries. -/
def event_time : Event → Nat
  | .setTempo _ t => t
  | .noteOn _ _ t => t
  | .noteOff _ _ t => t
  | .marker _ t => t

/-- Recognizer for `note_on` events. -/
def is_note_on : Event → Bool
  | .noteOn _ _ _ => true
  | _ => false

/-- Recognizer for `note_off` events. -/
def is_note_off : Event → Bool
  | .noteOff _ _ _ => true
  | _ => false

/-- Recognizer for `gap` markers. -/
def is_gap_marker : Event → Bool
  | .marker text _ => text == "gap"
  | _ => false

/-- Recognizer for `rep_gap` markers. -/
def is_rep_gap_marker : Event → Bool
  | .marker text _ => text == "rep_gap"
  | _ => false

/-- Every `note_on` carries velocity 100, every `note_off` velocity 0. -/
def velocities_ok : Event → Bool
  | .noteOn _ v _ => v == 100
  | .noteOff _ v _ => v == 0
  | _ => true

/-- Unfolding `choose_best_voicing` on a label present in the table. -/
theorem choose_best_voicing_eq (tonic : Int) (roman : String) (target_avg : ℚ)
    (offs : List Int) (h : chord_formulas.lookup roman = some offs) :
    choose_best_voicing tonic roman target_avg =
      .ok (((candidate_list (offs.map (fun o => tonic + o))).foldl
        (best_step target_avg) none).map Prod.fst) := by
  unfold choose_best_voicing get_chord_notes
  rw [h]
  rfl

/-- Reference description of the loop of `choose_best_voicing`: the
first-enumerated candidate of minimal distance, starting from a
current best `b`. -/
def best_of (target_avg : ℚ) (b : List Int) : List (List Int) → List Int
  | [] => b
  | x :: l =>
    if dist_to target_avg x < dist_to target_avg b then best_of target_avg x l
    else best_of target_avg b l

theorem dist_to_nonneg (target_avg : ℚ) (c : List Int) : 0 ≤ dist_to target_avg c :=
  abs_nonneg _

theorem foldl_best_step_some (target_avg : ℚ) (l : List (List Int)) :
    ∀ b : List Int,
      l.foldl (best_step target_avg) (some (b, dist_to target_avg b)) =
        some (best_of target_avg b l, dist_to target_avg (best_of target_avg b l)) := by
  induction l with
  | nil => intro b; simp [best_of]
  | cons x l ih =>
    intro b
    rw [List.foldl_cons, best_step, best_of]
    by_cases h : dist_to target_avg x < dist_to target_avg b
    · simp only [h, if_true, ih]
    · simp only [h, if_false, ih]

theorem foldl_best_step_none (target_avg : ℚ) (c : List Int) (l : List (List Int)) :
    (c :: l).foldl (best_step target_avg) none =
      some (best_of target_avg c l, dist_to target_avg (best_of target_avg c l)) := by
  rw [List.foldl_cons]
  exact foldl_best_step_some target_avg l c

theorem best_of_mem (target_avg : ℚ) (l : List (List Int)) :
    ∀ b : List Int, best_of target_avg b l ∈ b :: l := by
  induction l with
  | nil => intro b; simp [best_of]
  | cons x l ih =>
    intro b
    rw [best_of]
    by_cases h : dist_to target_avg x < dist_to target_avg b
    · simp only [h, if_true]
      have := ih x
      simp only [List.mem_cons] at this ⊢
      tauto
    · simp only [h, if_false]
      have := ih b
      simp only [List.mem_cons] at this ⊢
      tauto

theorem best_of_min (target_avg : ℚ) (l : List (List Int)) :
    ∀ b : List Int, ∀ x ∈ b :: l,
      dist_to target_avg (best_of target_avg b l) ≤ dist_to target_avg x := by
  induction l with
  | nil =>
    intro b x hx
    simp only [List.mem_cons, List.not_mem_nil, or_false] at hx
    subst hx; simp [best_of]
  | cons c l ih =>
    intro b x hx
    rw [best_of]
    by_cases h : dist_to target_avg c < dist_to target_avg b
    · simp only [h, if_true]
      rcases List.mem_cons.mp hx with hb | hx'
      · subst hb
        have h1 : dist_to target_avg (best_of target_avg c l) ≤ dist_to target_avg c :=
          ih c c (List.mem_cons_self c l)
        exact le_of_lt (lt_of_le_of_lt h1 h)
      · exact ih c x hx'
    · simp only [h, if_false]
      rcases List.mem_cons.mp hx with hb | hx'
      · rw [hb]
        exact ih b b (List.mem_cons_self b l)
      · rcases List.mem_cons.mp hx' with hc | hl
        · subst hc
          have h1 : dist_to target_avg (best_of target_avg b l) ≤ dist_to target_avg b :=
            ih b b (List.mem_cons_self b l)
          exact le_trans h1 (not_lt.mp h)
        · exact ih b x (List.mem_cons.mpr (Or.inr hl))

theorem best_of_first (target_avg : ℚ) (l : List (List Int)) :
    ∀ b : List Int,
      (b :: l).find?
          (fun x => decide (dist_to target_avg x = dist_to target_avg (best_of target_avg b l))) =
        some (best_of target_avg b l) := by
  induction l with
  | nil =>
    intro b
    simp [best_of, List.find?]
  | cons c l ih =>
    intro b
    rw [best_of]
    by_cases h : dist_to target_avg c < dist_to target_avg b
    · simp only [h, if_true]
      have hle : dist_to target_avg (best_of target_avg c l) ≤ dist_to target_avg c :=
        best_of_min target_avg l c c (List.mem_cons_self c l)
      have hne : ¬ (dist_to target_avg b = dist_to target_avg (best_of target_avg c l)) := by
        intro he
        exact absurd (lt_of_le_of_lt hle h) (by rw [he]; exact lt_irrefl _)
      rw [List.find?_cons_of_neg _ (by simpa using hne)]
      exact ih c
    · simp only [h, if_false]
      have hb := ih b
      by_cases hbe : dist_to target_avg b = dist_to target_avg (best_of target_avg b l)
      · rw [List.find?_cons_of_pos _ (by simpa using hbe)] at hb ⊢
        exact hb
      · have hlt : dist_to target_avg (best_of target_avg b l) < dist_to target_avg b := by
          have := best_of_min target_avg l b b (List.mem_cons_self b l)
          exact lt_of_le_of_ne this (fun he => hbe he.symm)
        have hce : ¬ (dist_to target_avg c = dist_to target_avg (best_of target_avg b l)) := by
          intro he
        -- dist best < dist b ≤ dist c contradicts dist c = dist best
          have h1 : dist_to target_avg b ≤ dist_to target_avg c := not_lt.mp h
          rw [he] at h1
          exact absurd (lt_of_le_of_lt h1 hlt) (lt_irrefl _)
        rw [List.find?_cons_of_neg _ (by simpa using hbe)] at hb
        rw [List.find?_cons_of_neg _ (by simpa using hbe),
          List.find?_cons_of_neg _ (by simpa using hce)]
        exact hb

theorem best_of_of_dist_zero (target_avg : ℚ) (l : List (List Int)) :
    ∀ b : List Int, dist_to target_avg b = 0 → best_of target_avg b l = b := by
  induction l with
  | nil => intro b _; rfl
  | cons c l ih =>
    intro b hb
    rw [best_of, hb]
    have : ¬ dist_to target_avg c < 0 := not_lt.mpr (dist_to_nonneg target_avg c)
    simp only [this, if_false]
    exact ih b hb

/-- The six candidates, in enumeration order: for each inversion the
shift-0 candidate comes before the shift-(−12) one. -/
theorem candidate_list_eq (base : List Int) :
    candidate_list base =
      [base.map (fun note => note + 0),
       base.map (fun note => note + (-12)),
       (apply_inversion base 1).map (fun note => note + 0),
       (apply_inversion base 1).map (fun note => note + (-12)),
       (apply_inversion base 2).map (fun note => note + 0),
       (apply_inversion base 2).map (fun note => note + (-12))] := rfl

theorem candidate_list_length (base : List Int) :
    (candidate_list base).length = 6 := rfl

/-- Every entry of the chord table is a triad: exactly 3 offsets. -/
theorem chord_formulas_length3 (L : String) (offs : List Int)
    (h : chord_formulas.lookup L = some offs) : offs.length = 3 := by
  simp only [chord_formulas, List.lookup] at h
  repeat' split at h
  all_goals first
    | (cases h; rfl)
    | simp_all

/-- Each candidate built from a 3-note base has 3 notes. -/
theorem candidate_mem_length (base : List Int) (hb : base.length = 3)
    (x : List Int) (hx : x ∈ candidate_list base) : x.length = 3 := by
  rw [candidate_list_eq] at hx
  simp only [List.mem_cons, List.not_mem_nil, or_false] at hx
  rcases hx with h | h | h | h | h | h <;>
    simp [h, apply_inversion, hb]

/-- On any label of the table, the optimizer succeeds and returns the
first-enumerated candidate of minimal distance among the 6 candidates. -/
theorem choose_best_voicing_spec (tonic : Int) (roman : String) (target_avg : ℚ)
    (offs : List Int) (h : chord_formulas.lookup roman = some offs) :
    ∃ v, choose_best_voicing tonic roman target_avg = .ok (some v) ∧
      v ∈ candidate_list (offs.map (fun o => tonic + o)) ∧
      (∀ x ∈ candidate_list (offs.map (fun o => tonic + o)),
        dist_to target_avg v ≤ dist_to target_avg x) ∧
      (candidate_list (offs.map (fun o => tonic + o))).find?
        (fun x => decide (dist_to target_avg x = dist_to target_avg v)) = some v := by
  rw [choose_best_voicing_eq tonic roman target_avg offs h]
  rw [candidate_list_eq, List.foldl_cons]
  rw [show best_step target_avg none ((offs.map (fun o => tonic + o)).map (fun note => note + 0)) =
    some ((offs.map (fun o => tonic + o)).map (fun note => note + 0),
      dist_to target_avg ((offs.map (fun o => tonic + o)).map (fun note => note + 0))) from rfl]
  rw [foldl_best_step_some]
  refine ⟨_, rfl, ?_, ?_, ?_⟩
  · exact best_of_mem target_avg _ _
  · exact best_of_min target_avg _ _
  · exact best_of_first target_avg _ _

/-- The optimizer's result, on a table label, always has exactly 3 notes. -/
theorem choose_best_voicing_len3 (tonic : Int) (roman : String) (target_avg : ℚ)
    (offs : List Int) (h : chord_formulas.lookup roman = some offs) :
    ∃ v, choose_best_voicing tonic roman target_avg = .ok (some v) ∧ v.length = 3 := by
  obtain ⟨v, hv, hmem, -, -⟩ := choose_best_voicing_spec tonic roman target_avg offs h
  refine ⟨v, hv, candidate_mem_length _ ?_ v hmem⟩
  rw [List.length_map]
  exact chord_formulas_length3 roman offs h

/-- Claim C1: for every tonic, every chord-table label other than "I"
and every target average, `choose_best_voicing` returns, among the 6
candidates enumerated inversion-major / octave-shift-minor over
`base = [tonic + o for o in offsets]`, the candidate whose absolute
mean-pitch distance to the target is smallest; on an exact tie the
first-enumerated candidate wins. -/
theorem claim_C1 (t : Int) (L : String) (target_avg : ℚ) (offs : List Int)
    (hL : chord_formulas.lookup L = some offs) (_hne : L ≠ "I") :
    ∃ c, choose_best_voicing t L target_avg = .ok (some c) ∧
      (candidate_list (offs.map (fun o => t + o))).length = 6 ∧
      c ∈ candidate_list (offs.map (fun o => t + o)) ∧
      (∀ x ∈ candidate_list (offs.map (fun o => t + o)),
        dist_to target_avg c ≤ dist_to target_avg x) ∧
      (candidate_list (offs.map (fun o => t + o))).find?
        (fun x => decide (dist_to target_avg x = dist_to target_avg c)) = some c := by
  obtain ⟨v, hv, hmem, hmin, hfirst⟩ := choose_best_voicing_spec t L target_avg offs hL
  exact ⟨v, hv, candidate_list_length _, hmem, hmin, hfirst⟩

/-- Witness for C1 at tonic 60, label "V", target 191/3. -/
theorem claim_C1_witness :
    ∃ c, choose_best_voicing 60 "V" (191/3) = .ok (some c) ∧
      (candidate_list ([7, 11, 14].map (fun o => (60 : Int) + o))).length = 6 ∧
      c ∈ candidate_list ([7, 11, 14].map (fun o => (60 : Int) + o)) ∧
      (∀ x ∈ candidate_list ([7, 11, 14].map (fun o => (60 : Int) + o)),
        dist_to (191/3) c ≤ dist_to (191/3) x) ∧
      (candidate_list ([7, 11, 14].map (fun o => (60 : Int) + o))).find?
        (fun x => decide (dist_to (191/3) x = dist_to (191/3) c)) = some c :=
  claim_C1 60 "V" (191/3) [7, 11, 14] (by decide) (by decide)

/-- Claim C2 counterexample: with tonic 60, label "V" and target
191/3 (the mean of the root-position I chord [60, 64, 67]), the code
does not return [62, 67, 71]: the inversion-1, shift-(−12) candidate
[59, 62, 67] has mean 188/3, at distance 1 from the target, strictly
closer than [62, 67, 71] (mean 200/3, distance 3). -/
theorem claim_C2_counterexample :
    ¬ (choose_best_voicing 60 "V" (191/3) = .ok (some [62, 67, 71])) := by
  rw [choose_best_voicing_eq 60 "V" (191/3) [7, 11, 14] (by decide)]
  have h2 : candidate_list ([7, 11, 14].map (fun o => (60 : Int) + o)) =
      [[67, 71, 74], [55, 59, 62], [71, 74, 79], [59, 62, 67],
       [74, 79, 83], [62, 67, 71]] := by decide
  rw [h2]
  norm_num [best_step, dist_to, avg_pitch, List.foldl]

/-- Claim C2 (amended): for tonic 60 and target 191/3,
`choose_best_voicing(60, "V", 191/3)` returns [59, 62, 67], i.e.
inversion 1 of the base [67, 71, 74] with all three notes shifted down
12 semitones. -/
theorem claim_C2 :
    choose_best_voicing 60 "V" (191/3) = .ok (some [59, 62, 67]) := by
  rw [choose_best_voicing_eq 60 "V" (191/3) [7, 11, 14] (by decide)]
  have h2 : candidate_list ([7, 11, 14].map (fun o => (60 : Int) + o)) =
      [[67, 71, 74], [55, 59, 62], [71, 74, 79], [59, 62, 67],
       [74, 79, 83], [62, 67, 71]] := by decide
  rw [h2]
  norm_num [best_step, dist_to, avg_pitch, List.foldl]

/-- Claim C4 counterexample: the returned voicing minimizes the
distance to the target, not the mean itself.  At tonic 60, label "V",
target 100, the code returns [74, 79, 83] (mean 236/3), while the
candidate [55, 59, 62] (inversion 0 shifted down an octave, mean
176/3) has a strictly smaller mean. -/
theorem claim_C4_counterexample :
    choose_best_voicing 60 "V" 100 = .ok (some [74, 79, 83]) ∧
      [55, 59, 62] ∈ candidate_list ([7, 11, 14].map (fun o => (60 : Int) + o)) ∧
      avg_pitch [55, 59, 62] < avg_pitch [74, 79, 83] := by
  have h2 : candidate_list ([7, 11, 14].map (fun o => (60 : Int) + o)) =
      [[67, 71, 74], [55, 59, 62], [71, 74, 79], [59, 62, 67],
       [74, 79, 83], [62, 67, 71]] := by decide
  refine ⟨?_, by rw [h2]; norm_num, by norm_num [avg_pitch]⟩
  rw [choose_best_voicing_eq 60 "V" 100 [7, 11, 14] (by decide), h2]
  norm_num [best_step, dist_to, avg_pitch, List.foldl, abs_of_nonneg, abs_of_nonpos]

/-- Claim C4 (amended): for all tonics, all table labels other than
"I" and every target average, `choose_best_voicing` returns exactly 3
notes, and its absolute mean-pitch distance to the target is ≤ that of
every one of the 6 enumerated candidates. -/
theorem claim_C4 (t : Int) (L : String) (target_avg : ℚ) (offs : List Int)
    (hL : chord_formulas.lookup L = some offs) (_hne : L ≠ "I") :
    ∃ c, choose_best_voicing t L target_avg = .ok (some c) ∧
      c.length = 3 ∧
      (∀ x ∈ candidate_list (offs.map (fun o => t + o)),
        dist_to target_avg c ≤ dist_to target_avg x) := by
  obtain ⟨v, hv, hmem, hmin, -⟩ := choose_best_voicing_spec t L target_avg offs hL
  refine ⟨v, hv, candidate_mem_length _ ?_ v hmem, hmin⟩
  rw [List.length_map]
  exact chord_formulas_length3 L offs hL

/-- Witness for the amended C4 at tonic 60, label "V", target 100. -/
theorem claim_C4_witness :
    ∃ c, choose_best_voicing 60 "V" 100 = .ok (some c) ∧
      c.length = 3 ∧
      (∀ x ∈ candidate_list ([7, 11, 14].map (fun o => (60 : Int) + o)),
        dist_to 100 c ≤ dist_to 100 x) :=
  claim_C4 60 "V" 100 [7, 11, 14] (by decide) (by decide)

/-- Claim C9: on label "I" with the target equal to the mean of the
root-position I chord [t, t+4, t+7], the optimizer's search returns
that root-position voicing itself, the inversion-0 / shift-0 candidate,
at distance 0. -/
theorem claim_C9 (t : Int) :
    get_chord_notes t "I" = .ok [t, t + 4, t + 7] ∧
      dist_to (avg_pitch [t, t + 4, t + 7]) [t, t + 4, t + 7] = 0 ∧
      choose_best_voicing t "I" (avg_pitch [t, t + 4, t + 7]) =
        .ok (some [t, t + 4, t + 7]) := by
  have hI : get_chord_notes t "I" = .ok [t, t + 4, t + 7] := by
    have h : get_chord_notes t "I" = .ok ([0, 4, 7].map (fun o => t + o)) := rfl
    rw [h]
    norm_num
  refine ⟨hI, by rw [dist_to, sub_self, abs_zero], ?_⟩
  rw [choose_best_voicing_eq t "I" _ [0, 4, 7] (by decide)]
  rw [candidate_list_eq, List.foldl_cons]
  rw [show best_step (avg_pitch [t, t + 4, t + 7]) none
      (([0, 4, 7].map (fun o => t + o)).map (fun note => note + 0)) =
    some ((([0, 4, 7].map (fun o => t + o)).map (fun note => note + 0)),
      dist_to (avg_pitch [t, t + 4, t + 7])
        (([0, 4, 7].map (fun o => t + o)).map (fun note => note + 0))) from rfl]
  rw [foldl_best_step_some]
  have h0 : dist_to (avg_pitch [t, t + 4, t + 7])
      (([0, 4, 7].map (fun o => t + o)).map (fun note => note + 0)) = 0 := by
    rw [dist_to, abs_eq_zero, avg_pitch, avg_pitch]
    simp only [List.map_cons, List.map_nil, List.sum_cons, List.sum_nil,
      List.length_cons, List.length_nil]
    push_cast
    ring
  rw [best_of_of_dist_zero _ _ _ h0]
  norm_num

/-- `generate_progression` on an explicitly provided length, with the
clamp expressed through `max`. -/
theorem generate_progression_some (randint : Int) (sample : Nat → List String)
    (len : Int) :
    generate_progression randint sample (some len) =
      (if max len 1 = 1 then .ok ["I"]
       else if additional_chords.length < (max len 1 - 1).toNat then
         .error .invalidLength
       else .ok ("I" :: sample (max len 1 - 1).toNat)) := by
  rcases lt_or_ge len 1 with h | h
  · have h1 : max len 1 = 1 := max_eq_right (le_of_lt h)
    rw [h1]
    simp [generate_progression, h]
  · have h1 : max len 1 = len := max_eq_left h
    rw [h1]
    simp [generate_progression, not_lt.mpr h]

/-- Claim C3: with resolved length `r = max(length, 1)`: `r = 1` gives
`["I"]`; `2 ≤ r ≤ 8` gives exactly `r` labels, first "I", the rest
pairwise-distinct members of the 7-entry additional pool; and
`generate(0)` and `generate(-5)` return `["I"]` exactly like
`generate(1)`.  The process random source is the `sample` oracle,
assumed to behave as `random.sample` does on valid sizes. -/
theorem claim_C3 (randint : Int) (sample : Nat → List String) (len : Int)
    (hs : ∀ k, k ≤ additional_chords.length →
      (sample k).length = k ∧ (sample k).Nodup ∧ ∀ x ∈ sample k, x ∈ additional_chords) :
    (max len 1 = 1 → generate_progression randint sample (some len) = .ok ["I"]) ∧
    (2 ≤ max len 1 → max len 1 ≤ 8 →
      ∃ rest, generate_progression randint sample (some len) = .ok ("I" :: rest) ∧
        (1 + rest.length : Int) = max len 1 ∧ rest.Nodup ∧
        ∀ x ∈ rest, x ∈ additional_chords) ∧
    generate_progression randint sample (some 0) = .ok ["I"] ∧
    generate_progression randint sample (some (-5)) = .ok ["I"] ∧
    generate_progression randint sample (some 1) = .ok ["I"] := by
  have hlen7 : additional_chords.length = 7 := rfl
  refine ⟨?_, ?_, ?_, ?_, ?_⟩
  · intro h1
    rw [generate_progression_some, h1]
    simp
  · intro h2 h8
    have hne1 : ¬ max len 1 = 1 := by omega
    have hk : (max len 1 - 1).toNat ≤ 7 := by omega
    have hnlt : ¬ additional_chords.length < (max len 1 - 1).toNat := by
      rw [hlen7]; omega
    rw [generate_progression_some, if_neg hne1, if_neg hnlt]
    obtain ⟨hlen, hnd, hmem⟩ := hs (max len 1 - 1).toNat (by rw [hlen7]; exact hk)
    exact ⟨sample (max len 1 - 1).toNat, rfl, by rw [hlen]; omega, hnd, hmem⟩
  · rw [generate_progression_some]; norm_num
  · rw [generate_progression_some]; norm_num
  · rw [generate_progression_some]; norm_num

/-- Witness for C3 at provided length 3 with the take-based sample oracle. -/
theorem claim_C3_witness :
    (max (3 : Int) 1 = 1 →
      generate_progression 2 (fun k => additional_chords.take k) (some 3) = .ok ["I"]) ∧
    (2 ≤ max (3 : Int) 1 → max (3 : Int) 1 ≤ 8 →
      ∃ rest, generate_progression 2 (fun k => additional_chords.take k) (some 3) =
          .ok ("I" :: rest) ∧
        (1 + rest.length : Int) = max (3 : Int) 1 ∧ rest.Nodup ∧
        ∀ x ∈ rest, x ∈ additional_chords) ∧
    generate_progression 2 (fun k => additional_chords.take k) (some 0) = .ok ["I"] ∧
    generate_progression 2 (fun k => additional_chords.take k) (some (-5)) = .ok ["I"] ∧
    generate_progression 2 (fun k => additional_chords.take k) (some 1) = .ok ["I"] :=
  claim_C3 2 (fun k => additional_chords.take k) 3 (by decide)

/-- A label is absent from the chord table exactly when it is outside
the fixed 8-entry vocabulary. -/
theorem chord_formulas_lookup_none_iff (L : String) :
    chord_formulas.lookup L = none ↔
      L ∉ (["I", "ii", "iii", "IV", "V", "vi", "vii°", "#II"] : List String) := by
  by_cases h1 : L = "I"
  · subst h1; decide
  by_cases h2 : L = "ii"
  · subst h2; decide
  by_cases h3 : L = "iii"
  · subst h3; decide
  by_cases h4 : L = "IV"
  · subst h4; decide
  by_cases h5 : L = "V"
  · subst h5; decide
  by_cases h6 : L = "vi"
  · subst h6; decide
  by_cases h7 : L = "vii°"
  · subst h7; decide
  by_cases h8 : L = "#II"
  · subst h8; decide
  have e1 : (L == "I") = false := by simp [h1]
  have e2 : (L == "ii") = false := by simp [h2]
  have e3 : (L == "iii") = false := by simp [h3]
  have e4 : (L == "IV") = false := by simp [h4]
  have e5 : (L == "V") = false := by simp [h5]
  have e6 : (L == "vi") = false := by simp [h6]
  have e7 : (L == "vii°") = false := by simp [h7]
  have e8 : (L == "#II") = false := by simp [h8]
  simp [chord_formulas, List.lookup, e1, e2, e3, e4, e5, e6, e7, e8,
    h1, h2, h3, h4, h5, h6, h7, h8]

/-- The optimizer propagates the table's `unknownDegree` failure. -/
theorem choose_best_voicing_err (tonic : Int) (L : String) (target_avg : ℚ)
    (h : chord_formulas.lookup L = none) :
    choose_best_voicing tonic L target_avg = .error .unknownDegree := by
  unfold choose_best_voicing get_chord_notes
  rw [h]
  rfl

/-- Claim C7: `generate_progression` fails, with `invalidLength`, iff
the clamped length minus 1 exceeds the 7-entry pool (in particular at
length 9); `get_chord_notes` and `choose_best_voicing` fail, with
`unknownDegree`, iff the label is outside the fixed 8-entry
vocabulary; and these are the only failure modes of those functions. -/
theorem claim_C7 (randint : Int) (sample : Nat → List String) :
    (∀ len : Int,
      (generate_progression randint sample (some len) = .error .invalidLength ↔
        7 < max len 1 - 1) ∧
      (∀ e, generate_progression randint sample (some len) = .error e →
        e = .invalidLength)) ∧
    generate_progression randint sample (some 9) = .error .invalidLength ∧
    (∀ (t : Int) (L : String),
      (get_chord_notes t L = .error .unknownDegree ↔
        L ∉ (["I", "ii", "iii", "IV", "V", "vi", "vii°", "#II"] : List String)) ∧
      (∀ e, get_chord_notes t L = .error e → e = .unknownDegree)) ∧
    (∀ (t : Int) (L : String) (target_avg : ℚ),
      (choose_best_voicing t L target_avg = .error .unknownDegree ↔
        L ∉ (["I", "ii", "iii", "IV", "V", "vi", "vii°", "#II"] : List String)) ∧
      (∀ e, choose_best_voicing t L target_avg = .error e → e = .unknownDegree)) := by
  have hlen7 : additional_chords.length = 7 := rfl
  have hgen : ∀ len : Int,
      (generate_progression randint sample (some len) = .error .invalidLength ↔
        7 < max len 1 - 1) ∧
      (∀ e, generate_progression randint sample (some len) = .error e →
        e = .invalidLength) := by
    intro len
    have hr : 1 ≤ max len 1 := le_max_right len 1
    rw [generate_progression_some]
    by_cases h1 : max len 1 = 1
    · rw [if_pos h1]
      constructor
      · constructor
        · intro h; exact absurd h (by simp)
        · intro h; omega
      · intro e he; exact absurd he (by simp)
    · rw [if_neg h1]
      by_cases h2 : additional_chords.length < (max len 1 - 1).toNat
      · rw [if_pos h2]
        rw [hlen7] at h2
        exact ⟨⟨fun _ => by omega, fun _ => rfl⟩, fun e he => by
          cases he; rfl⟩
      · rw [if_neg h2]
        rw [hlen7] at h2
        constructor
        · constructor
          · intro h; exact absurd h (by simp)
          · intro h; omega
        · intro e he; exact absurd he (by simp)
  refine ⟨hgen, ?_, ?_, ?_⟩
  · have := (hgen 9).1.mpr (by norm_num)
    exact this
  · intro t L
    constructor
    · rw [← chord_formulas_lookup_none_iff]
      cases h : chord_formulas.lookup L with
      | none => simp [get_chord_notes, h]
      | some offs => simp [get_chord_notes, h]
    · intro e he
      cases h : chord_formulas.lookup L with
      | none =>
        unfold get_chord_notes at he
        rw [h] at he
        injection he with h'
        exact h'.symm
      | some offs =>
        unfold get_chord_notes at he
        rw [h] at he
        exact absurd he (by simp)
  · intro t L target_avg
    constructor
    · rw [← chord_formulas_lookup_none_iff]
      cases h : chord_formulas.lookup L with
      | none => simp [choose_best_voicing_err t L target_avg h, h]
      | some offs => simp [choose_best_voicing_eq t L target_avg offs h, h]
    · intro e he
      cases h : chord_formulas.lookup L with
      | none =>
        rw [choose_best_voicing_err t L target_avg h] at he
        injection he with h'
        exact h'.symm
      | some offs =>
        rw [choose_best_voicing_eq t L target_avg offs h] at he
        exact absurd he (by simp)

/-- Resolution of a single degree present in the table succeeds with a
3-note voicing. -/
theorem resolve_voicing_ok (tonic : Int) (I_chord : List Int) (target_avg : ℚ)
    (hI : I_chord.length = 3) (L : String)
    (hL : (chord_formulas.lookup L).isSome) :
    ∃ v, resolve_voicing tonic I_chord target_avg L = .ok v ∧ v.length = 3 := by
  by_cases h : L = "I"
  · exact ⟨I_chord, by simp [resolve_voicing, h], hI⟩
  · obtain ⟨offs, hoffs⟩ := Option.isSome_iff_exists.mp hL
    obtain ⟨v, hv, hlen⟩ := choose_best_voicing_len3 tonic L target_avg offs hoffs
    refine ⟨v, ?_, hlen⟩
    rw [resolve_voicing, if_neg h, hv]

/-- Resolving a progression of table labels succeeds, one 3-note
voicing per degree. -/
theorem resolve_voicings_ok (tonic : Int) (I_chord : List Int) (target_avg : ℚ)
    (hI : I_chord.length = 3) :
    ∀ p : List String, (∀ L ∈ p, (chord_formulas.lookup L).isSome) →
      ∃ vs, resolve_voicings tonic I_chord target_avg p = .ok vs ∧
        vs.length = p.length ∧ ∀ v ∈ vs, v.length = 3 := by
  intro p
  induction p with
  | nil => exact fun _ => ⟨[], rfl, rfl, by simp⟩
  | cons L p ih =>
    intro hp
    obtain ⟨v, hv, hv3⟩ :=
      resolve_voicing_ok tonic I_chord target_avg hI L (hp L (List.mem_cons_self L p))
    obtain ⟨vs, hvs, hlen, h3⟩ := ih (fun M hM => hp M (List.mem_cons_of_mem L hM))
    refine ⟨v :: vs, ?_, by simp [hlen], ?_⟩
    · rw [resolve_voicings, hv, hvs]
      rfl
    · intro u hu
      rcases List.mem_cons.mp hu with rfl | hu'
      · exact hv3
      · exact h3 u hu'

/-- `create_midi_for_progression` on a progression of table labels:
the full timeline, as one `set_tempo`, the first repetition, the
`rep_gap` marker and the second repetition. -/
theorem create_midi_eq (p : List String) (t : Int) (cd gap rg : Nat)
    (hp : ∀ L ∈ p, (chord_formulas.lookup L).isSome) :
    ∃ vs, vs.length = p.length ∧ (∀ v ∈ vs, v.length = 3) ∧
      create_midi_for_progression p t cd gap rg =
        .ok (Event.setTempo 1000000 0 ::
          (rep_events cd gap vs ++
            Event.marker "rep_gap" rg :: rep_events cd gap vs)) := by
  have h0 : create_midi_for_progression p t cd gap rg =
      (resolve_voicings t ([0, 4, 7].map (fun o => t + o))
          (avg_pitch ([0, 4, 7].map (fun o => t + o))) p).bind
        (fun voicings => Except.ok (Event.setTempo 1000000 0 ::
          (rep_events cd gap voicings ++
            Event.marker "rep_gap" rg :: rep_events cd gap voicings))) := rfl
  obtain ⟨vs, hvs, hlen, h3⟩ :=
    resolve_voicings_ok t ([0, 4, 7].map (fun o => t + o))
      (avg_pitch ([0, 4, 7].map (fun o => t + o))) (by simp) p hp
  refine ⟨vs, hlen, h3, ?_⟩
  rw [h0, hvs]
  rfl

/-- The 6 events of a 3-note chord block, in order. -/
theorem chord_events_of_three (cd : Nat) (a b c : Int) :
    chord_events cd [a, b, c] =
      [Event.noteOn a 100 0, Event.noteOn b 100 0, Event.noteOn c 100 0,
       Event.noteOff a 0 cd, Event.noteOff b 0 0, Event.noteOff c 0 0] := rfl

theorem gap_beq_rep_gap : (("gap" : String) == "rep_gap") = false := by decide

theorem rep_gap_beq_gap : (("rep_gap" : String) == "gap") = false := by decide

theorem rep_events_countP_note_on (cd gap : Nat) :
    ∀ vs : List (List Int), (∀ v ∈ vs, v.length = 3) →
      (rep_events cd gap vs).countP is_note_on = 3 * vs.length := by
  intro vs
  induction vs with
  | nil => intro _; simp [rep_events]
  | cons v vs ih =>
    intro h3
    obtain ⟨a, b, c, hv⟩ :=
      List.length_eq_three.mp (h3 v (List.mem_cons_self v vs))
    have ih' := ih (fun u hu => h3 u (List.mem_cons_of_mem v hu))
    cases vs with
    | nil =>
      subst hv
      simp [rep_events, chord_events_of_three, List.countP_cons, is_note_on]
    | cons w ws =>
      subst hv
      simp only [List.length_cons] at ih'
      simp [rep_events, chord_events_of_three, List.countP_append,
        List.countP_cons, is_note_on, ih', Nat.mul_add, List.length_cons]
      try omega

theorem rep_events_countP_gap (cd gap : Nat) :
    ∀ vs : List (List Int), (∀ v ∈ vs, v.length = 3) →
      (rep_events cd gap vs).countP is_gap_marker = vs.length - 1 := by
  intro vs
  induction vs with
  | nil => intro _; simp [rep_events]
  | cons v vs ih =>
    intro h3
    obtain ⟨a, b, c, hv⟩ :=
      List.length_eq_three.mp (h3 v (List.mem_cons_self v vs))
    have ih' := ih (fun u hu => h3 u (List.mem_cons_of_mem v hu))
    cases vs with
    | nil =>
      subst hv
      simp [rep_events, chord_events_of_three, List.countP_cons, is_gap_marker]
    | cons w ws =>
      subst hv
      simp only [List.length_cons] at ih'
      simp [rep_events, chord_events_of_three, List.countP_append,
        List.countP_cons, is_gap_marker, ih', List.length_cons]
      try omega

theorem rep_events_countP_rep_gap (cd gap : Nat) :
    ∀ vs : List (List Int), (∀ v ∈ vs, v.length = 3) →
      (rep_events cd gap vs).countP is_rep_gap_marker = 0 := by
  intro vs
  induction vs with
  | nil => intro _; simp [rep_events]
  | cons v vs ih =>
    intro h3
    obtain ⟨a, b, c, hv⟩ :=
      List.length_eq_three.mp (h3 v (List.mem_cons_self v vs))
    have ih' := ih (fun u hu => h3 u (List.mem_cons_of_mem v hu))
    cases vs with
    | nil =>
      subst hv
      simp [rep_events, chord_events_of_three, List.countP_cons,
        is_rep_gap_marker, gap_beq_rep_gap]
    | cons w ws =>
      subst hv
      simp only [rep_events, chord_events_of_three, List.countP_append,
        List.countP_cons, is_rep_gap_marker, gap_beq_rep_gap] at ih' ⊢
      simp only [ih']
      simp

theorem rep_events_time_sum (cd gap : Nat) :
    ∀ vs : List (List Int), (∀ v ∈ vs, v.length = 3) →
      ((rep_events cd gap vs).map event_time).sum =
        vs.length * cd + (vs.length - 1) * gap := by
  intro vs
  induction vs with
  | nil => intro _; simp [rep_events]
  | cons v vs ih =>
    intro h3
    obtain ⟨a, b, c, hv⟩ :=
      List.length_eq_three.mp (h3 v (List.mem_cons_self v vs))
    have ih' := ih (fun u hu => h3 u (List.mem_cons_of_mem v hu))
    cases vs with
    | nil =>
      subst hv
      simp [rep_events, chord_events_of_three, event_time]
    | cons w ws =>
      subst hv
      simp only [List.length_cons, Nat.add_sub_cancel] at ih'
      simp [rep_events, chord_events_of_three, List.map_append, List.map_cons,
        List.sum_append, List.sum_cons, event_time, ih', List.length_cons,
        Nat.add_mul, Nat.add_sub_cancel]
      try omega

theorem chord_events_velocities (cd : Nat) (v : List Int) :
    ∀ e ∈ chord_events cd v, velocities_ok e = true := by
  intro e he
  cases v with
  | nil => simp [chord_events] at he
  | cons n rest =>
    simp only [chord_events, List.map_cons, List.mem_append, List.mem_cons,
      List.mem_map] at he
    rcases he with (rfl | ⟨m, -, rfl⟩) | (rfl | ⟨m, -, rfl⟩) <;> rfl

theorem rep_events_velocities (cd gap : Nat) :
    ∀ vs : List (List Int), ∀ e ∈ rep_events cd gap vs, velocities_ok e = true := by
  intro vs
  induction vs with
  | nil => intro e he; simp [rep_events] at he
  | cons v vs ih =>
    intro e he
    cases vs with
    | nil =>
      simp only [rep_events] at he
      exact chord_events_velocities cd v e he
    | cons w ws =>
      simp only [rep_events, List.mem_append, List.mem_cons] at he
      rcases he with h | rfl | h
      · exact chord_events_velocities cd v e h
      · rfl
      · exact ih e (by simpa [rep_events] using h)

/-- Claim C5: for every non-empty progression of table labels and
every tonic, the timeline holds exactly `2 × 3 × len(p)` note-on
events, `2 × (len(p) − 1)` markers tagged "gap", and exactly 1 marker
tagged "rep_gap". -/
theorem claim_C5 (p : List String) (t : Int) (_hne : p ≠ [])
    (hp : ∀ L ∈ p, (chord_formulas.lookup L).isSome) :
    ∃ evs, create_midi_for_progression p t 960 240 960 = .ok evs ∧
      evs.countP is_note_on = 2 * (3 * p.length) ∧
      evs.countP is_gap_marker = 2 * (p.length - 1) ∧
      evs.countP is_rep_gap_marker = 1 := by
  obtain ⟨vs, hlen, h3, hcreate⟩ := create_midi_eq p t 960 240 960 hp
  refine ⟨_, hcreate, ?_, ?_, ?_⟩
  · simp [List.countP_cons, List.countP_append, is_note_on,
      rep_events_countP_note_on 960 240 vs h3, hlen]
    try omega
  · simp [List.countP_cons, List.countP_append, is_gap_marker, rep_gap_beq_gap,
      rep_events_countP_gap 960 240 vs h3, hlen]
    try omega
  · simp [List.countP_cons, List.countP_append, is_rep_gap_marker,
      rep_events_countP_rep_gap 960 240 vs h3]

/-- Witness for C5 on the progression ["I", "V"] at tonic 60. -/
theorem claim_C5_witness :
    ∃ evs, create_midi_for_progression ["I", "V"] 60 960 240 960 = .ok evs ∧
      evs.countP is_note_on = 2 * (3 * 2) ∧
      evs.countP is_gap_marker = 2 * (2 - 1) ∧
      evs.countP is_rep_gap_marker = 1 :=
  claim_C5 ["I", "V"] 60 (by simp) (by decide)

/-- Claim C6: with the default tick durations 960/240/960, the sum of
all event time-offsets equals `2 × (len(p)×960 + (len(p)−1)×240) + 960`;
for a 2-chord progression that total is 5280 ticks. -/
theorem claim_C6 (p : List String) (t : Int) (_hne : p ≠ [])
    (hp : ∀ L ∈ p, (chord_formulas.lookup L).isSome) :
    ∃ evs, create_midi_for_progression p t 960 240 960 = .ok evs ∧
      (evs.map event_time).sum =
        2 * (p.length * 960 + (p.length - 1) * 240) + 960 ∧
      (p.length = 2 → (evs.map event_time).sum = 5280) := by
  obtain ⟨vs, hlen, h3, hcreate⟩ := create_midi_eq p t 960 240 960 hp
  have hmain : ((Event.setTempo 1000000 0 ::
      (rep_events 960 240 vs ++
        Event.marker "rep_gap" 960 :: rep_events 960 240 vs)).map event_time).sum =
      2 * (p.length * 960 + (p.length - 1) * 240) + 960 := by
    simp [List.map_append, List.sum_append, event_time,
      rep_events_time_sum 960 240 vs h3, hlen]
    try omega
  refine ⟨_, hcreate, hmain, ?_⟩
  intro h2
  rw [hmain, h2]

/-- Witness for C6 on the progression ["I", "V"] at tonic 60. -/
theorem claim_C6_witness :
    ∃ evs, create_midi_for_progression ["I", "V"] 60 960 240 960 = .ok evs ∧
      (evs.map event_time).sum = 2 * (2 * 960 + (2 - 1) * 240) + 960 ∧
      ((["I", "V"] : List String).length = 2 → (evs.map event_time).sum = 5280) :=
  claim_C6 ["I", "V"] 60 (by simp) (by decide)

/-- Claim C8: every timeline decomposes into chord blocks (and
markers); within each block the three note-ons come first, all at
time-offset 0, and each pitch then receives its note-off before the
next chord's events, the first note-off at `chordDurationTicks` and
the remaining ones at 0. -/
theorem claim_C8 (p : List String) (t : Int) (cd gap rg : Nat)
    (hp : ∀ L ∈ p, (chord_formulas.lookup L).isSome) :
    ∃ vs, create_midi_for_progression p t cd gap rg =
        .ok (Event.setTempo 1000000 0 ::
          (rep_events cd gap vs ++
            Event.marker "rep_gap" rg :: rep_events cd gap vs)) ∧
      ∀ v ∈ vs, ∃ a b c, v = [a, b, c] ∧
        chord_events cd v =
          [Event.noteOn a 100 0, Event.noteOn b 100 0, Event.noteOn c 100 0,
           Event.noteOff a 0 cd, Event.noteOff b 0 0, Event.noteOff c 0 0] := by
  obtain ⟨vs, hlen, h3, hcreate⟩ := create_midi_eq p t cd gap rg hp
  refine ⟨vs, hcreate, ?_⟩
  intro v hv
  obtain ⟨a, b, c, hvabc⟩ := List.length_eq_three.mp (h3 v hv)
  exact ⟨a, b, c, hvabc, by rw [hvabc]; exact chord_events_of_three cd a b c⟩

/-- Witness for C8 on the progression ["I", "V"] at tonic 60. -/
theorem claim_C8_witness :
    ∃ vs, create_midi_for_progression ["I", "V"] 60 960 240 960 =
        .ok (Event.setTempo 1000000 0 ::
          (rep_events 960 240 vs ++
            Event.marker "rep_gap" 960 :: rep_events 960 240 vs)) ∧
      ∀ v ∈ vs, ∃ a b c, v = [a, b, c] ∧
        chord_events 960 v =
          [Event.noteOn a 100 0, Event.noteOn b 100 0, Event.noteOn c 100 0,
           Event.noteOff a 0 960, Event.noteOff b 0 0, Event.noteOff c 0 0] :=
  claim_C8 ["I", "V"] 60 960 240 960 (by decide)

/-- Claim C10: every note-on event of every produced timeline carries
velocity 100 and every note-off carries velocity 0. -/
theorem claim_C10 (p : List String) (t : Int) (cd gap rg : Nat)
    (hp : ∀ L ∈ p, (chord_formulas.lookup L).isSome) :
    ∃ evs, create_midi_for_progression p t cd gap rg = .ok evs ∧
      ∀ e ∈ evs, velocities_ok e = true := by
  obtain ⟨vs, hlen, h3, hcreate⟩ := create_midi_eq p t cd gap rg hp
  refine ⟨_, hcreate, ?_⟩
  intro e he
  rcases List.mem_cons.mp he with rfl | he'
  · rfl
  rcases List.mem_append.mp he' with h | h
  · exact rep_events_velocities cd gap vs e h
  rcases List.mem_cons.mp h with rfl | h'
  · rfl
  · exact rep_events_velocities cd gap vs e h'

/-- Witness for C10 on the progression ["I", "V"] at tonic 60. -/
theorem claim_C10_witness :
    ∃ evs, create_midi_for_progression ["I", "V"] 60 960 240 960 = .ok evs ∧
      ∀ e ∈ evs, velocities_ok e = true :=
  claim_C10 ["I", "V"] 60 960 240 960 (by decide)
